import Mathlib

/-!
Verification of `optimize_antenna_placement.py` (RFID antenna placement via PSO).

The Python source is shallowly embedded below.  NumPy arrays become Lean
functions or lists, the imperative accumulation of `coverage_map` becomes a sum
of per-(antenna, offset) contributions indexed by the receiving cell, and the
PSO main loop becomes a step function on an explicit swarm state driven by the
per-iteration random pair (r1, r2).  Floating point arithmetic is modelled by
exact real arithmetic.
-/

namespace RFID

/-- The warehouse layout, line 7 of the source: walls are 1, free cells are 0. -/
def warehouse_rows : List (List ℤ) :=
  [[1, 1, 1, 1, 1, 1, 1, 1, 1, 1],
   [1, 0, 0, 0, 1, 0, 0, 0, 0, 1],
   [1, 0, 1, 0, 1, 0, 1, 1, 0, 1],
   [1, 0, 0, 0, 0, 0, 0, 0, 0, 1],
   [1, 0, 0, 0, 1, 0, 0, 0, 0, 1],
   [1, 1, 1, 1, 1, 1, 1, 1, 1, 1]]

/-- `warehouse_map[x, y]` as a total function.  Every access in the source is
guarded by an explicit bounds check, so the out-of-range default (1, a wall)
is never consulted by the embedded code. -/
def warehouse_map (x y : ℤ) : ℤ :=
  if 0 ≤ x ∧ 0 ≤ y then (warehouse_rows.getD x.toNat []).getD y.toNat 1 else 1

/-- `map_size = warehouse_map.shape`, line 16 of the source. -/
def map_size : ℤ × ℤ := (6, 10)

/-- `signalrange = 0.46`, line 21 of the source. -/
def signalrange : ℝ := 0.46

/-- Inertia weight `w = 0.5`, line 32 of the source. -/
def w : ℝ := 0.5

/-- Cognitive weight `c1 = 1.5`, line 33 of the source. -/
def c1 : ℝ := 1.5

/-- Social weight `c2 = 1.5`, line 33 of the source. -/
def c2 : ℝ := 1.5

/-- A coordinate pair is inside the grid (the check `0 <= nx < map_size[0]
and 0 <= ny < map_size[1]` used throughout the source). -/
def in_bounds (c : ℤ × ℤ) : Prop :=
  0 ≤ c.1 ∧ c.1 < map_size.1 ∧ 0 ≤ c.2 ∧ c.2 < map_size.2

instance in_bounds_dec : DecidablePred in_bounds := fun c => by
  unfold in_bounds; infer_instance

/-- `valid_set`, line 25 of the source: the set of coordinates produced by
`np.argwhere(warehouse_map == 0)`, i.e. the in-bounds FREE cells. -/
def valid_set (c : ℤ × ℤ) : Prop :=
  in_bounds c ∧ warehouse_map c.1 c.2 = 0

instance valid_set_dec : DecidablePred valid_set := fun c => by
  unfold valid_set; infer_instance

/-- The FREE cells as a finite set (the mask `warehouse_map == 0` of line 84,
over which the coverage mean is taken). -/
def free_cells : Finset (ℤ × ℤ) :=
  (Finset.Icc (0 : ℤ) (map_size.1 - 1) ×ˢ Finset.Icc (0 : ℤ) (map_size.2 - 1)).filter
    (fun c => warehouse_map c.1 c.2 = 0)

/-- Critical zone derivation, lines 53-59 of the source: an interior FREE cell
whose two neighbours on one axis are walls while the two on the other axis are
free. -/
def critical_zones (x y : ℤ) : Bool :=
  decide (1 ≤ x ∧ x ≤ map_size.1 - 2 ∧ 1 ≤ y ∧ y ≤ map_size.2 - 2 ∧
    warehouse_map x y = 0 ∧
    ((warehouse_map (x - 1) y = 1 ∧ warehouse_map (x + 1) y = 1 ∧
      warehouse_map x (y - 1) = 0 ∧ warehouse_map x (y + 1) = 0) ∨
     (warehouse_map x (y - 1) = 1 ∧ warehouse_map x (y + 1) = 1 ∧
      warehouse_map (x - 1) y = 0 ∧ warehouse_map (x + 1) y = 0)))

/-- Velocity update of a single antenna coordinate, line 183 of the source:
`velocity = w*velocity + c1*r1*(particles - global_best)
 + c2*r2*(particles - global_best)` (componentwise). -/
def velocity_update (r1 r2 : ℝ) (pos gbest : ℤ × ℤ) (vel : ℝ × ℝ) : ℝ × ℝ :=
  (w * vel.1 + c1 * r1 * ((pos.1 : ℝ) - (gbest.1 : ℝ))
     + c2 * r2 * ((pos.1 : ℝ) - (gbest.1 : ℝ)),
   w * vel.2 + c1 * r1 * ((pos.2 : ℝ) - (gbest.2 : ℝ))
     + c2 * r2 * ((pos.2 : ℝ) - (gbest.2 : ℝ)))

/-- C1: the velocity update does NOT pull particles toward the Global Best.
At r1 = r2 = 1 with zero old velocity, position (3, 4) and Global Best (1, 1),
the source's update (line 183) yields (6, 9): both terms are proportional to
(position - Global Best), pushing the particle AWAY from the Global Best.  The
claimed update, with both terms proportional to (Global Best - position),
would instead give (-6, -9): its first component is w*0 + c1*1*(1-3) +
c2*1*(1-3) = -6, as the second conjunct records. -/
theorem C1_velocity_pushes_away_from_global_best :
    velocity_update 1 1 (3, 4) (1, 1) (0, 0) = (6, 9) ∧
    w * 0 + c1 * 1 * ((1 : ℝ) - 3) + c2 * 1 * ((1 : ℝ) - 3) = -6 := by
  constructor
  · unfold velocity_update w c1 c2
    norm_num
  · unfold w c1 c2
    norm_num

/-- C10: on the hardcoded 6x10 grid, the critical-zone scan marks exactly the
eight cells (1,2), (1,6), (1,7), (2,1), (2,3), (2,5), (2,8), (3,4); moreover
every marked cell is interior (row in 1..4, column in 1..8), so no border cell
is ever marked. -/
theorem C10_critical_zones_exact :
    ((Finset.Icc (0 : ℤ) 5 ×ˢ Finset.Icc (0 : ℤ) 9).filter
        (fun c => critical_zones c.1 c.2 = true)
      = {(1, 2), (1, 6), (1, 7), (2, 1), (2, 3), (2, 5), (2, 8), (3, 4)}) ∧
    ∀ x y : ℤ, critical_zones x y = true →
      1 ≤ x ∧ x ≤ 4 ∧ 1 ≤ y ∧ y ≤ 8 := by
  constructor
  · decide
  · intro x y h
    unfold critical_zones at h
    rw [decide_eq_true_eq] at h
    unfold map_size at h
    norm_num at h
    exact ⟨h.1, h.2.1, h.2.2.1, h.2.2.2.1⟩

/-- Witness for C10: the interior-bound part applied at the marked cell (1,2). -/
theorem C10_witness :
    critical_zones 1 2 = true ∧
    (1 ≤ (1 : ℤ) ∧ (1 : ℤ) ≤ 4 ∧ 1 ≤ (2 : ℤ) ∧ (2 : ℤ) ≤ 8) :=
  ⟨by decide, C10_critical_zones_exact.2 1 2 (by decide)⟩

/-- The 9x9 offset window `i, j in range(-4, 5)`, lines 63-64 of the source. -/
def window : Finset (ℤ × ℤ) :=
  Finset.Icc (-4 : ℤ) 4 ×ˢ Finset.Icc (-4 : ℤ) 4

/-- The cell `(nx, ny) = (x + i, y + j)` reached from antenna `a` by offset
`o`, line 65 of the source. -/
def target (a o : ℤ × ℤ) : ℤ × ℤ := (a.1 + o.1, a.2 + o.2)

/-- First reflection cell `(nx, 2*ny - y)`, line 74 of the source. -/
def refl1 (a o : ℤ × ℤ) : ℤ × ℤ := ((target a o).1, 2 * (target a o).2 - a.2)

/-- Second reflection cell `(2*nx - x, ny)`, line 74 of the source. -/
def refl2 (a o : ℤ × ℤ) : ℤ × ℤ := (2 * (target a o).1 - a.1, (target a o).2)

/-- The Euclidean length of an offset, `distance = np.sqrt(i**2 + j**2)`,
line 67 of the source. -/
noncomputable def offset_norm (o : ℤ × ℤ) : ℝ :=
  Real.sqrt ((o.1 : ℝ) ^ 2 + (o.2 : ℝ) ^ 2)

/-- Exponential decay `np.exp(-distance / sr)` of an offset, line 69 of the
source (and line 113 with `sr = 2`). -/
noncomputable def decay_at (sr : ℝ) (o : ℤ × ℤ) : ℝ :=
  Real.exp (-offset_norm o / sr)

/-- Everything the loop body of lines 65-81 adds to the coverage map at cell
`c` for one antenna `a` and one offset `o`, with signal range `sr` and
critical-zone weight `critical_zone_weight`: the decay at the reached free
cell, half the decay at each in-bounds reflected wall cell (the condition
`warehouse_map[nx, ny] == 0` of line 73 is re-checked as in the source), and
the flat critical-zone bonus at the reached cell. -/
noncomputable def cell_contrib (sr critical_zone_weight : ℝ) (a o c : ℤ × ℤ) : ℝ :=
  if in_bounds (target a o) ∧ warehouse_map (target a o).1 (target a o).2 = 0 ∧
      offset_norm o < 8 then
    (if c = target a o then decay_at sr o else 0)
    + (if warehouse_map (target a o).1 (target a o).2 = 0 ∧ in_bounds (refl1 a o) ∧
          warehouse_map (refl1 a o).1 (refl1 a o).2 = 1 ∧ c = refl1 a o then
        decay_at sr o / 2 else 0)
    + (if warehouse_map (target a o).1 (target a o).2 = 0 ∧ in_bounds (refl2 a o) ∧
          warehouse_map (refl2 a o).1 (refl2 a o).2 = 1 ∧ c = refl2 a o then
        decay_at sr o / 2 else 0)
    + (if critical_zones (target a o).1 (target a o).2 = true ∧ c = target a o then
        critical_zone_weight else 0)
  else 0

/-- As `cell_contrib`, but with the two reflection deposits dropped.  Used to
state that reflections never land on FREE cells. -/
noncomputable def cell_contrib_norefl (sr critical_zone_weight : ℝ) (a o c : ℤ × ℤ) : ℝ :=
  if in_bounds (target a o) ∧ warehouse_map (target a o).1 (target a o).2 = 0 ∧
      offset_norm o < 8 then
    (if c = target a o then decay_at sr o else 0)
    + (if critical_zones (target a o).1 (target a o).2 = true ∧ c = target a o then
        critical_zone_weight else 0)
  else 0

/-- The coverage map accumulated by `compute_coverage` (lines 50-81 of the
source), evaluated at cell `c`: the total of all additions targeted at `c`,
over every antenna of the placement and every offset of the 9x9 window. -/
noncomputable def coverage_map (sr critical_zone_weight : ℝ)
    (antennas : List (ℤ × ℤ)) (c : ℤ × ℤ) : ℝ :=
  (antennas.map (fun a => ∑ o ∈ window, cell_contrib sr critical_zone_weight a o c)).sum

/-- Reflection-free variant of `coverage_map`. -/
noncomputable def coverage_map_norefl (sr critical_zone_weight : ℝ)
    (antennas : List (ℤ × ℤ)) (c : ℤ × ℤ) : ℝ :=
  (antennas.map (fun a => ∑ o ∈ window, cell_contrib_norefl sr critical_zone_weight a o c)).sum

/-- `coverage_score = np.mean(coverage_map[valid_mask])`, lines 84-85 of the
source: the mean of the coverage map over the FREE cells. -/
noncomputable def coverage_score (critical_zone_weight : ℝ)
    (antennas : List (ℤ × ℤ)) : ℝ :=
  (∑ c ∈ free_cells, coverage_map signalrange critical_zone_weight antennas c)
    / (free_cells.card : ℝ)

/-- Euclidean distance between two antenna coordinates (`scipy.cdist`,
line 88 of the source). -/
noncomputable def euclid_dist (a b : ℤ × ℤ) : ℝ :=
  Real.sqrt (((a.1 - b.1 : ℤ) : ℝ) ^ 2 + ((a.2 - b.2 : ℤ) : ℝ) ^ 2)

/-- Repulsion score, lines 88-90 of the source: `np.sum(np.exp(-distances/3))`
over the full K x K distance matrix whose diagonal was set to `np.inf`.  Each
diagonal entry contributes `exp(-inf) = 0`, embedded here as a literal 0. -/
noncomputable def repulsion_score (antennas : List (ℤ × ℤ)) : ℝ :=
  ∑ i ∈ Finset.range antennas.length, ∑ j ∈ Finset.range antennas.length,
    if i = j then 0
    else Real.exp (-(euclid_dist (antennas.getD i (0, 0)) (antennas.getD j (0, 0))) / 3)

/-- `compute_coverage`, lines 35-92 of the source.  The source's default
arguments are `repulsion_weight = 0.7` and `critical_zone_weight = 1.8`. -/
noncomputable def compute_coverage (antennas : List (ℤ × ℤ))
    (repulsion_weight critical_zone_weight : ℝ) : ℝ :=
  coverage_score critical_zone_weight antennas - repulsion_weight * repulsion_score antennas

/-- Helper: two antennas at the same coordinate repel with score exactly 2. -/
lemma repulsion_score_pair_same (a : ℤ × ℤ) : repulsion_score [a, a] = 2 := by
  unfold repulsion_score euclid_dist
  simp [Finset.sum_range_succ, Real.sqrt_zero, Real.exp_zero]
  norm_num

/-- C6: fitness decomposes as coverage score minus `repulsion_weight` times
the repulsion score (sum over ordered pairs of distinct indices of
exp(-distance/3), diagonal treated as exp(-inf) = 0); in particular two
emitters at the identical coordinate (2,1) give repulsion score exactly 2,
hence a penalty of `repulsion_weight * 2`. -/
theorem C6_fitness_and_double_repulsion :
    (∀ (antennas : List (ℤ × ℤ)) (repulsion_weight critical_zone_weight : ℝ),
      compute_coverage antennas repulsion_weight critical_zone_weight
        = coverage_score critical_zone_weight antennas
          - repulsion_weight * repulsion_score antennas) ∧
    repulsion_score [((2 : ℤ), (1 : ℤ)), (2, 1)] = 2 := by
  exact ⟨fun _ _ _ => rfl, repulsion_score_pair_same (2, 1)⟩

/-- Helper: a fully out-of-bounds antenna contributes nothing to any cell:
every offset of its window lands at row at most -1. -/
lemma cell_contrib_far_oob (sr cw : ℝ) (o c : ℤ × ℤ) (ho : o ∈ window) :
    cell_contrib sr cw ((-5 : ℤ), (-5 : ℤ)) o c = 0 := by
  unfold cell_contrib
  rw [if_neg]
  rintro ⟨hb, -, -⟩
  have h4 : o.1 ≤ 4 := by
    have := (Finset.mem_Icc.mp (Finset.mem_product.mp ho).1).2
    exact this
  have h0 : (0 : ℤ) ≤ -5 + o.1 := hb.1
  omega

/-- Helper: the coverage score of any placement made only of the coordinate
(-5, -5) is zero. -/
lemma coverage_map_far_oob (sr cw : ℝ) (c : ℤ × ℤ) (k : ℕ) :
    coverage_map sr cw (List.replicate k ((-5 : ℤ), (-5 : ℤ))) c = 0 := by
  unfold coverage_map
  induction k with
  | zero => simp
  | succ n ih =>
    rw [List.replicate_succ, List.map_cons, List.sum_cons, ih, add_zero]
    exact Finset.sum_eq_zero (fun o ho => cell_contrib_far_oob sr cw o c ho)

/-- C3 counterexample: no precondition failure is surfaced.  The evaluator,
applied to the out-of-bounds placement [(-5, -5)] (a PreconditionViolation in
the claim's taxonomy) with the default weights, silently returns the fitness
value 0 instead of rejecting the input: every window cell is clipped by the
bounds guard and the single emitter has zero repulsion. -/
theorem C3_counterexample_silent_oob :
    compute_coverage [((-5 : ℤ), (-5 : ℤ))] (7 / 10) (9 / 5) = 0 := by
  unfold compute_coverage coverage_score
  have hmap : ∀ c ∈ free_cells,
      coverage_map signalrange (9 / 5) [((-5 : ℤ), (-5 : ℤ))] c = 0 := by
    intro c _
    exact coverage_map_far_oob signalrange (9 / 5) c 1
  rw [Finset.sum_congr rfl hmap]
  unfold repulsion_score
  simp

/-- C3 amended: the code performs no validation at all; the evaluator is total
and silently computes over invalid placements, still applying the repulsion
penalty.  Two coincident out-of-bounds emitters at (-5, -5) yield fitness
0 - 0.7 * 2 = -7/5: a concrete result is produced, not an error. -/
theorem C3_no_validation_two_oob :
    compute_coverage [((-5 : ℤ), (-5 : ℤ)), (-5, -5)] (7 / 10) (9 / 5) = -(7 / 5) := by
  unfold compute_coverage coverage_score
  have hmap : ∀ c ∈ free_cells,
      coverage_map signalrange (9 / 5) [((-5 : ℤ), (-5 : ℤ)), (-5, -5)] c = 0 := by
    intro c _
    exact coverage_map_far_oob signalrange (9 / 5) c 2
  rw [Finset.sum_congr rfl hmap, repulsion_score_pair_same]
  norm_num

/-- Helper: decay is nonnegative. -/
lemma decay_at_nonneg (sr : ℝ) (o : ℤ × ℤ) : 0 ≤ decay_at sr o :=
  (Real.exp_pos _).le

/-- Helper: every single addition to the coverage map is nonnegative when the
critical-zone weight is. -/
lemma cell_contrib_nonneg (sr cw : ℝ) (hcw : 0 ≤ cw) (a o c : ℤ × ℤ) :
    0 ≤ cell_contrib sr cw a o c := by
  unfold cell_contrib
  split
  · have hd := decay_at_nonneg sr o
    refine add_nonneg (add_nonneg (add_nonneg ?_ ?_) ?_) ?_ <;> split <;> linarith
  · exact le_refl 0

/-- Helper: the coverage map is pointwise nonnegative. -/
lemma coverage_map_nonneg (sr cw : ℝ) (hcw : 0 ≤ cw)
    (antennas : List (ℤ × ℤ)) (c : ℤ × ℤ) :
    0 ≤ coverage_map sr cw antennas c := by
  unfold coverage_map
  apply List.sum_nonneg
  intro x hx
  obtain ⟨a, -, rfl⟩ := List.mem_map.mp hx
  exact Finset.sum_nonneg (fun o _ => cell_contrib_nonneg sr cw hcw a o c)

/-- C8: for a placement of in-bounds coordinates (and a nonnegative
critical-zone weight, as with the source default 1.8), the coverage score,
i.e. the mean of the coverage map over FREE cells before the repulsion penalty
is subtracted, is nonnegative: the map accumulates only nonnegative decay,
reflection, and bonus terms. -/
theorem C8_coverage_score_nonneg (antennas : List (ℤ × ℤ)) (cw : ℝ)
    (hcw : 0 ≤ cw) (_hants : ∀ c ∈ antennas, in_bounds c) :
    0 ≤ coverage_score cw antennas := by
  unfold coverage_score
  apply div_nonneg
  · exact Finset.sum_nonneg (fun c _ => coverage_map_nonneg signalrange cw hcw antennas c)
  · exact Nat.cast_nonneg _

/-- Witness for C8 at the single in-bounds FREE cell (1, 1) and the source's
default critical-zone weight 9/5. -/
theorem C8_witness : 0 ≤ coverage_score (9 / 5) [((1 : ℤ), (1 : ℤ))] :=
  C8_coverage_score_nonneg [((1 : ℤ), (1 : ℤ))] (9 / 5) (by norm_num) (by decide)

/-- Helper: at a FREE cell the two reflection deposits vanish, because a
reflection only ever writes to a cell that is a wall. -/
lemma cell_contrib_free_cell (sr cw : ℝ) (a o c : ℤ × ℤ)
    (hc : warehouse_map c.1 c.2 = 0) :
    cell_contrib sr cw a o c = cell_contrib_norefl sr cw a o c := by
  unfold cell_contrib cell_contrib_norefl
  split
  · have h1 : ¬(warehouse_map (target a o).1 (target a o).2 = 0 ∧ in_bounds (refl1 a o) ∧
        warehouse_map (refl1 a o).1 (refl1 a o).2 = 1 ∧ c = refl1 a o) := by
      rintro ⟨-, -, hw, hcr⟩
      rw [← hcr] at hw
      rw [hc] at hw
      exact absurd hw (by norm_num)
    have h2 : ¬(warehouse_map (target a o).1 (target a o).2 = 0 ∧ in_bounds (refl2 a o) ∧
        warehouse_map (refl2 a o).1 (refl2 a o).2 = 1 ∧ c = refl2 a o) := by
      rintro ⟨-, -, hw, hcr⟩
      rw [← hcr] at hw
      rw [hc] at hw
      exact absurd hw (by norm_num)
    rw [if_neg h1, if_neg h2]
    ring
  · rfl

/-- Helper: at a FREE cell the full and reflection-free coverage maps agree. -/
lemma coverage_map_free_cell (sr cw : ℝ) (antennas : List (ℤ × ℤ)) (c : ℤ × ℤ)
    (hc : warehouse_map c.1 c.2 = 0) :
    coverage_map sr cw antennas c = coverage_map_norefl sr cw antennas c := by
  unfold coverage_map coverage_map_norefl
  induction antennas with
  | nil => rfl
  | cons a as ih =>
    rw [List.map_cons, List.map_cons, List.sum_cons, List.sum_cons, ih]
    congr 1
    exact Finset.sum_congr rfl (fun o _ => cell_contrib_free_cell sr cw a o c hc)

/-- Helper: offsets of the 9x9 window always satisfy the distance check
`sqrt(i^2 + j^2) < 8` of line 68 of the source. -/
lemma offset_norm_lt_eight (o : ℤ × ℤ) (ho : o ∈ window) : offset_norm o < 8 := by
  obtain ⟨h1, h2⟩ := Finset.mem_product.mp ho
  obtain ⟨h1a, h1b⟩ := Finset.mem_Icc.mp h1
  obtain ⟨h2a, h2b⟩ := Finset.mem_Icc.mp h2
  unfold offset_norm
  rw [show (8 : ℝ) = Real.sqrt 64 by
    rw [show (64 : ℝ) = 8 ^ 2 by norm_num, Real.sqrt_sq (by norm_num : (0 : ℝ) ≤ 8)]]
  apply Real.sqrt_lt_sqrt
  · positivity
  · have ha : ((o.1 : ℝ)) ^ 2 ≤ 16 := by
      have l : (-4 : ℝ) ≤ (o.1 : ℝ) := by exact_mod_cast h1a
      have r : ((o.1 : ℝ)) ≤ 4 := by exact_mod_cast h1b
      nlinarith
    have hb : ((o.2 : ℝ)) ^ 2 ≤ 16 := by
      have l : (-4 : ℝ) ≤ (o.2 : ℝ) := by exact_mod_cast h2a
      have r : ((o.2 : ℝ)) ≤ 4 := by exact_mod_cast h2b
      nlinarith
    nlinarith

/-- Helper: (2, 0) is an offset of the window. -/
lemma pair_two_zero_mem_window : ((2 : ℤ), (0 : ℤ)) ∈ window := by decide

/-- Helper: the norm of the offset (2, 0) is 2. -/
lemma offset_norm_two_zero : offset_norm ((2 : ℤ), (0 : ℤ)) = 2 := by
  unfold offset_norm
  norm_num
  rw [show (4 : ℝ) = 2 ^ 2 by norm_num, Real.sqrt_sq (by norm_num : (0 : ℝ) ≤ 2)]

/-- Helper: from antenna (1, 1), offset (2, 0) reaches the FREE cell (3, 1)
and mirrors it across the antenna's row onto the wall cell (5, 1), depositing
half the decay there. -/
lemma cell_contrib_wall_deposit :
    cell_contrib signalrange (9 / 5) ((1 : ℤ), (1 : ℤ)) (2, 0) (5, 1)
      = decay_at signalrange (2, 0) / 2 := by
  unfold cell_contrib
  rw [if_pos ⟨by decide, by decide, by rw [offset_norm_two_zero]; norm_num⟩]
  rw [if_neg (by decide), if_neg (by decide), if_pos (by decide), if_neg (by decide)]
  ring

/-- C7: the coverage score is the mean over FREE cells only, and reflection
energy never directly contributes to it: the score equals the mean over FREE
cells of the reflection-free coverage map (first conjunct), even though the
reflections are really written into the map, onto wall cells - e.g. the
placement [(1, 1)] deposits a strictly positive reflection value at the
OBSTACLE cell (5, 1) (second conjunct). -/
theorem C7_reflections_excluded_from_mean :
    (∀ (cw : ℝ) (antennas : List (ℤ × ℤ)),
      coverage_score cw antennas
        = (∑ c ∈ free_cells, coverage_map_norefl signalrange cw antennas c)
            / (free_cells.card : ℝ)) ∧
    0 < coverage_map signalrange (9 / 5) [((1 : ℤ), (1 : ℤ))] (5, 1) := by
  constructor
  · intro cw antennas
    unfold coverage_score
    congr 1
    refine Finset.sum_congr rfl (fun c hc => ?_)
    exact coverage_map_free_cell signalrange cw antennas c (Finset.mem_filter.mp hc).2
  · unfold coverage_map
    rw [List.map_cons, List.map_nil, List.sum_cons, List.sum_nil, add_zero]
    apply Finset.sum_pos'
    · intro o _
      exact cell_contrib_nonneg signalrange (9 / 5) (by norm_num) _ o (5, 1)
    · refine ⟨((2 : ℤ), (0 : ℤ)), pair_two_zero_mem_window, ?_⟩
      rw [cell_contrib_wall_deposit]
      have := Real.exp_pos (-offset_norm ((2 : ℤ), (0 : ℤ)) / signalrange)
      unfold decay_at
      linarith

/-- Everything the loop body of lines 110-122 (`plot_coverage_heatmap`) adds
to its coverage map at cell `c` for one antenna `a` and one offset `o`: decay
`exp(-distance / 2)` at the reached free cell and half of it at each in-bounds
reflected wall cell.  There is no distance cutoff and no critical-zone bonus
in the plotting variant. -/
noncomputable def heat_contrib (a o c : ℤ × ℤ) : ℝ :=
  if in_bounds (target a o) ∧ warehouse_map (target a o).1 (target a o).2 = 0 then
    (if c = target a o then decay_at 2 o else 0)
    + (if warehouse_map (target a o).1 (target a o).2 = 0 ∧ in_bounds (refl1 a o) ∧
          warehouse_map (refl1 a o).1 (refl1 a o).2 = 1 ∧ c = refl1 a o then
        decay_at 2 o / 2 else 0)
    + (if warehouse_map (target a o).1 (target a o).2 = 0 ∧ in_bounds (refl2 a o) ∧
          warehouse_map (refl2 a o).1 (refl2 a o).2 = 1 ∧ c = refl2 a o then
        decay_at 2 o / 2 else 0)
  else 0

/-- The Coverage Map produced by `plot_coverage_heatmap` (lines 102-122 of the
source) on a placement, evaluated at cell `c`; the plotting side effects are
omitted. -/
noncomputable def plot_coverage_map (antennas : List (ℤ × ℤ)) (c : ℤ × ℤ) : ℝ :=
  (antennas.map (fun a => ∑ o ∈ window, heat_contrib a o c)).sum

/-- C2 amended: the visualization map is NOT the evaluator's map; it is the
evaluator's accumulation taken with signal range 2 (not signalrange = 0.46)
and critical-zone weight 0 (the bonus is absent), with the same 9x9 window and
the same half-decay reflection rule; the distance cutoff of the evaluator is
vacuous on the window, so it makes no further difference. -/
theorem C2_heatmap_is_range_two_no_bonus (antennas : List (ℤ × ℤ)) (c : ℤ × ℤ) :
    plot_coverage_map antennas c = coverage_map 2 0 antennas c := by
  unfold plot_coverage_map coverage_map
  induction antennas with
  | nil => rfl
  | cons a as ih =>
    rw [List.map_cons, List.map_cons, List.sum_cons, List.sum_cons, ih]
    congr 1
    refine Finset.sum_congr rfl (fun o ho => ?_)
    have hcut := offset_norm_lt_eight o ho
    unfold heat_contrib cell_contrib
    by_cases hmain : in_bounds (target a o) ∧
        warehouse_map (target a o).1 (target a o).2 = 0
    · rw [if_pos hmain,
        if_pos (show in_bounds (target a o) ∧
          warehouse_map (target a o).1 (target a o).2 = 0 ∧ offset_norm o < 8 from
          ⟨hmain.1, hmain.2, hcut⟩)]
      rw [ite_self, add_zero]
    · rw [if_neg hmain,
        if_neg (show ¬(in_bounds (target a o) ∧
          warehouse_map (target a o).1 (target a o).2 = 0 ∧ offset_norm o < 8) from
          fun h => hmain ⟨h.1, h.2.1⟩)]

/-- Helper: a FREE cell that is not the reached cell receives nothing from
the plotting loop body: the direct term misses it and reflections only hit
walls. -/
lemma heat_contrib_zero_of_ne (a o c : ℤ × ℤ)
    (hfree : warehouse_map c.1 c.2 = 0) (hne : c ≠ target a o) :
    heat_contrib a o c = 0 := by
  unfold heat_contrib
  split
  · have h1 : ¬(warehouse_map (target a o).1 (target a o).2 = 0 ∧ in_bounds (refl1 a o) ∧
        warehouse_map (refl1 a o).1 (refl1 a o).2 = 1 ∧ c = refl1 a o) := by
      rintro ⟨-, -, hw, hcr⟩
      rw [← hcr] at hw
      rw [hfree] at hw
      exact absurd hw (by norm_num)
    have h2 : ¬(warehouse_map (target a o).1 (target a o).2 = 0 ∧ in_bounds (refl2 a o) ∧
        warehouse_map (refl2 a o).1 (refl2 a o).2 = 1 ∧ c = refl2 a o) := by
      rintro ⟨-, -, hw, hcr⟩
      rw [← hcr] at hw
      rw [hfree] at hw
      exact absurd hw (by norm_num)
    simp [hne, h1, h2]
  · rfl

/-- Helper: the same for the evaluator's loop body. -/
lemma cell_contrib_zero_of_ne (sr cw : ℝ) (a o c : ℤ × ℤ)
    (hfree : warehouse_map c.1 c.2 = 0) (hne : c ≠ target a o) :
    cell_contrib sr cw a o c = 0 := by
  rw [cell_contrib_free_cell sr cw a o c hfree]
  unfold cell_contrib_norefl
  split
  · simp [hne]
  · rfl

/-- Helper: in the 9x9 window of antenna (1, 1), only the offset (0, 1)
reaches the cell (1, 2). -/
lemma only_offset_reaches_1_2 (o : ℤ × ℤ) (hne : o ≠ ((0 : ℤ), (1 : ℤ))) :
    ((1 : ℤ), (2 : ℤ)) ≠ target ((1 : ℤ), (1 : ℤ)) o := by
  obtain ⟨of, os⟩ := o
  intro h
  unfold target at h
  rw [Prod.mk.injEq] at h
  apply hne
  rw [Prod.mk.injEq]
  omega

/-- Helper: the heatmap of the placement [(1, 1)] at the FREE cell (1, 2)
holds exactly the decay exp(-1/2). -/
lemma plot_coverage_map_at_1_2 :
    plot_coverage_map [((1 : ℤ), (1 : ℤ))] (1, 2) = Real.exp (-(1 : ℝ) / 2) := by
  unfold plot_coverage_map
  rw [List.map_cons, List.map_nil, List.sum_cons, List.sum_nil, add_zero]
  rw [Finset.sum_eq_single_of_mem ((0 : ℤ), (1 : ℤ)) (by decide)]
  · unfold heat_contrib
    rw [if_pos (show in_bounds (target ((1 : ℤ), (1 : ℤ)) (0, 1)) ∧
        warehouse_map (target ((1 : ℤ), (1 : ℤ)) (0, 1)).1
          (target ((1 : ℤ), (1 : ℤ)) (0, 1)).2 = 0 by decide)]
    rw [if_pos (by decide), if_neg (by decide), if_neg (by decide)]
    unfold decay_at offset_norm
    norm_num
  · intro o _ hne
    exact heat_contrib_zero_of_ne ((1 : ℤ), (1 : ℤ)) o ((1 : ℤ), (2 : ℤ)) (by decide)
      (only_offset_reaches_1_2 o hne)

/-- Helper: the evaluator's map for the placement [(1, 1)] at the critical
FREE cell (1, 2): the direct decay exp(-1/signalrange) plus the critical-zone
bonus 9/5. -/
lemma coverage_map_at_1_2 :
    coverage_map signalrange (9 / 5) [((1 : ℤ), (1 : ℤ))] (1, 2)
      = Real.exp (-(1 : ℝ) / signalrange) + 9 / 5 := by
  unfold coverage_map
  rw [List.map_cons, List.map_nil, List.sum_cons, List.sum_nil, add_zero]
  rw [Finset.sum_eq_single_of_mem ((0 : ℤ), (1 : ℤ)) (by decide)]
  · unfold cell_contrib
    rw [if_pos (show in_bounds (target ((1 : ℤ), (1 : ℤ)) (0, 1)) ∧
        warehouse_map (target ((1 : ℤ), (1 : ℤ)) (0, 1)).1
          (target ((1 : ℤ), (1 : ℤ)) (0, 1)).2 = 0 ∧
        offset_norm ((0 : ℤ), (1 : ℤ)) < 8 from
      ⟨by decide, by decide, by unfold offset_norm; norm_num⟩)]
    rw [if_pos (by decide), if_neg (by decide), if_neg (by decide), if_pos (by decide)]
    unfold decay_at offset_norm
    norm_num
  · intro o _ hne
    exact cell_contrib_zero_of_ne signalrange (9 / 5) ((1 : ℤ), (1 : ℤ)) o
      ((1 : ℤ), (2 : ℤ)) (by decide) (only_offset_reaches_1_2 o hne)

/-- C2 counterexample: the visualization map does not equal the evaluator's
map.  For the Global-Best-like placement [(1, 1)] at the FREE cell (1, 2), the
heatmap holds exp(-1/2) (which is below 1) while the evaluator's accumulation
holds exp(-1/signalrange) + 9/5 (which exceeds 9/5): different decay constant
and a missing critical-zone bonus. -/
theorem C2_counterexample_maps_differ :
    plot_coverage_map [((1 : ℤ), (1 : ℤ))] (1, 2)
      ≠ coverage_map signalrange (9 / 5) [((1 : ℤ), (1 : ℤ))] (1, 2) := by
  rw [plot_coverage_map_at_1_2, coverage_map_at_1_2]
  have h1 : Real.exp (-(1 : ℝ) / 2) < 1 := by
    rw [show (1 : ℝ) = Real.exp 0 by rw [Real.exp_zero]]
    exact Real.exp_lt_exp.mpr (by norm_num)
  have h2 : 0 < Real.exp (-(1 : ℝ) / signalrange) := Real.exp_pos _
  intro h
  rw [h] at h1
  linarith

/-- Helper: the embedded Euclidean distance is symmetric. -/
lemma euclid_dist_comm (a b : ℤ × ℤ) : euclid_dist a b = euclid_dist b a := by
  unfold euclid_dist
  congr 1
  push_cast
  ring

/-- C9: the repulsion penalty is strictly monotone in pairwise distance.  If
placement q agrees with placement p except at index m, and the emitter at
index m is strictly farther from every other emitter in q than in p, then the
repulsion score of q is strictly below that of p (there being at least one
other emitter). -/
theorem C9_repulsion_strictly_decreases
    (p q : List (ℤ × ℤ)) (m : ℕ)
    (hlen : q.length = p.length)
    (hm : m < p.length)
    (hsame : ∀ j, j ≠ m → q.getD j (0, 0) = p.getD j (0, 0))
    (hfar : ∀ j, j < p.length → j ≠ m →
      euclid_dist (p.getD m (0, 0)) (p.getD j (0, 0))
        < euclid_dist (q.getD m (0, 0)) (q.getD j (0, 0)))
    (hex : ∃ j, j < p.length ∧ j ≠ m) :
    repulsion_score q < repulsion_score p := by
  unfold repulsion_score
  rw [hlen]
  have hterm : ∀ i j, i < p.length → j < p.length →
      (if i = j then (0 : ℝ)
        else Real.exp (-(euclid_dist (q.getD i (0, 0)) (q.getD j (0, 0))) / 3))
      ≤ (if i = j then 0
        else Real.exp (-(euclid_dist (p.getD i (0, 0)) (p.getD j (0, 0))) / 3)) := by
    intro i j hi hj
    by_cases hij : i = j
    · rw [if_pos hij, if_pos hij]
    · rw [if_neg hij, if_neg hij]
      apply Real.exp_le_exp.mpr
      have hdist : euclid_dist (p.getD i (0, 0)) (p.getD j (0, 0))
          ≤ euclid_dist (q.getD i (0, 0)) (q.getD j (0, 0)) := by
        by_cases him : i = m
        · have hjm : j ≠ m := fun h => hij (him.trans h.symm)
          rw [him]
          exact (hfar j hj hjm).le
        · by_cases hjm : j = m
          · rw [hjm, euclid_dist_comm (p.getD i (0, 0)), euclid_dist_comm (q.getD i (0, 0))]
            exact (hfar i hi him).le
          · rw [hsame i him, hsame j hjm]
      linarith
  apply Finset.sum_lt_sum
  · intro i hi
    exact Finset.sum_le_sum (fun j hj =>
      hterm i j (Finset.mem_range.mp hi) (Finset.mem_range.mp hj))
  · obtain ⟨j0, hj0n, hj0m⟩ := hex
    refine ⟨m, Finset.mem_range.mpr hm, Finset.sum_lt_sum
      (fun j hj => hterm m j hm (Finset.mem_range.mp hj)) ⟨j0, Finset.mem_range.mpr hj0n, ?_⟩⟩
    have hmj0 : m ≠ j0 := fun h => hj0m h.symm
    rw [if_neg hmj0, if_neg hmj0]
    apply Real.exp_lt_exp.mpr
    have := hfar j0 hj0n hj0m
    linarith

/-- Witness for C9: moving the second emitter of [(1,1), (1,2)] to (1,3)
doubles its distance (1 to 2) from the first and strictly lowers the
repulsion score. -/
theorem C9_witness :
    repulsion_score [((1 : ℤ), (1 : ℤ)), (1, 3)]
      < repulsion_score [((1 : ℤ), (1 : ℤ)), (1, 2)] := by
  apply C9_repulsion_strictly_decreases
    [((1 : ℤ), (1 : ℤ)), (1, 2)] [((1 : ℤ), (1 : ℤ)), (1, 3)] 1 rfl (by norm_num)
  · intro j hj
    match j with
    | 0 => rfl
    | (n + 2) => rfl
    | 1 => exact absurd rfl hj
  · intro j hjn hjm
    have hjn2 : j < 2 := by simpa using hjn
    have hj0 : j = 0 := by omega
    subst hj0
    show euclid_dist ((1 : ℤ), (2 : ℤ)) (1, 1) < euclid_dist ((1 : ℤ), (3 : ℤ)) (1, 1)
    unfold euclid_dist
    norm_num
    rw [show ((4 : ℝ)) = 2 ^ 2 by norm_num, Real.sqrt_sq (by norm_num : (0 : ℝ) ≤ 2)]
    nlinarith [Real.sq_sqrt (by norm_num : (0 : ℝ) ≤ 1), Real.sqrt_nonneg (1 : ℝ),
      Real.sqrt_one]
  · exact ⟨0, by norm_num, by norm_num⟩

/-- `np.round(...).astype(int)`, line 184 of the source: round to the nearest
integer, ties to the even integer (NumPy's rounding rule). -/
noncomputable def np_round (x : ℝ) : ℤ :=
  if Int.fract x < 1 / 2 then ⌊x⌋
  else if 1 / 2 < Int.fract x then ⌊x⌋ + 1
  else if ⌊x⌋ % 2 = 0 then ⌊x⌋ else ⌊x⌋ + 1

/-- Lines 183-190 of the source for a single emitter coordinate of a single
particle: update the velocity (toward or away from the Global Best coordinate
`g`), round the moved position, and keep it only if it lands in `valid_set`,
otherwise revert the position (the velocity is kept either way). -/
noncomputable def antenna_step (r1 r2 : ℝ) (g : ℤ × ℤ)
    (pv : (ℤ × ℤ) × (ℝ × ℝ)) : (ℤ × ℤ) × (ℝ × ℝ) :=
  let v := velocity_update r1 r2 pv.1 g pv.2
  let cand := (np_round ((pv.1.1 : ℝ) + v.1), np_round ((pv.1.2 : ℝ) + v.2))
  (if valid_set cand then cand else pv.1, v)

/-- One particle's position/velocity update: every emitter coordinate paired
with its velocity row and the matching Global Best coordinate (the NumPy
broadcast `particles - global_best` acts per emitter index). -/
noncomputable def particle_step (r1 r2 : ℝ) (g : List (ℤ × ℤ))
    (pos : List (ℤ × ℤ)) (vel : List (ℝ × ℝ)) : List ((ℤ × ℤ) × (ℝ × ℝ)) :=
  List.zipWith (fun pv gk => antenna_step r1 r2 gk pv) (pos.zip vel) g

/-- The mutable state of the PSO main loop, lines 167-169 and 28-29 of the
source.  `global_best = none` and `best_fitness = none` embed the initial
`None` / `-np.inf`. -/
structure SwarmState where
  particles : List (List (ℤ × ℤ))
  velocity : List (List (ℝ × ℝ))
  global_best : Option (List (ℤ × ℤ))
  best_fitness : Option ℝ
  fitness_history : List ℝ

/-- Per-particle fitness, line 172 of the source: `compute_coverage(p)` with
the default weights. -/
noncomputable def fit (p : List (ℤ × ℤ)) : ℝ := compute_coverage p (7 / 10) (9 / 5)

/-- Line 175 of the source: the incumbent improves iff the iteration maximum
strictly exceeds it (`np.max(fitness) > best_fitness`, with the initial
incumbent `-np.inf` always beaten). -/
noncomputable def improved (bf0 : Option ℝ) (fmax : ℝ) : Bool :=
  match bf0 with
  | none => true
  | some b => decide (b < fmax)

/-- The incumbent best fitness after lines 175-176 of the source. -/
noncomputable def new_best (bf0 : Option ℝ) (fmax : ℝ) : ℝ :=
  match bf0 with
  | none => fmax
  | some b => if b < fmax then fmax else b

/-- One iteration of the PSO main loop, lines 171-192 of the source: evaluate
all particles, update the incumbent Global Best on strict improvement (argmax
ties broken by first index), append the incumbent fitness to the history,
then move every particle with the shared random pair `r = (r1, r2)` and
repair invalid coordinates.  An empty population would fault in the source
(`np.max` of an empty array); it is embedded as a no-op and never arises for
the source's `num_particles = 80`.  The branch taking `s.global_best.getD []`
with `s.global_best = none` is unreachable from initialization, where
`best_fitness = none` forces an improvement. -/
noncomputable def pso_step (s : SwarmState) (r : ℝ × ℝ) : SwarmState :=
  match s.particles with
  | [] => s
  | p :: ps =>
    let fmax := (ps.map fit).foldl max (fit p)
    let gb : List (ℤ × ℤ) :=
      if improved s.best_fitness fmax then
        (p :: ps).getD (((p :: ps).map fit).indexOf fmax) []
      else s.global_best.getD []
    let upd := List.zipWith (fun pos vel => particle_step r.1 r.2 gb pos vel)
      (p :: ps) s.velocity
    { particles := upd.map (fun l => l.map Prod.fst)
      velocity := upd.map (fun l => l.map Prod.snd)
      global_best := some gb
      best_fitness := some (new_best s.best_fitness fmax)
      fitness_history := s.fitness_history ++ [new_best s.best_fitness fmax] }

/-- Initial swarm state, lines 28-29 and 167-169 of the source, for a
population `ps` sampled from the valid positions: zero velocities, no Global
Best yet, empty history. -/
def pso_init (ps : List (List (ℤ × ℤ))) : SwarmState :=
  { particles := ps
    velocity := ps.map (fun q => q.map (fun _ => ((0 : ℝ), (0 : ℝ))))
    global_best := none
    best_fitness := none
    fitness_history := [] }

/-- The PSO main loop, line 171 of the source, driven by the list of random
pairs `(r1, r2)` drawn at line 182, one per iteration. -/
noncomputable def pso_run (s : SwarmState) (rs : List (ℝ × ℝ)) : SwarmState :=
  rs.foldl pso_step s

/-- Every emitter coordinate of every particle lies in `valid_set`. -/
def all_valid (pss : List (List (ℤ × ℤ))) : Prop :=
  ∀ q ∈ pss, ∀ c ∈ q, valid_set c

instance all_valid_dec : ∀ pss, Decidable (all_valid pss) := fun pss => by
  unfold all_valid; infer_instance

/-- Helper: members of a zipWith come from members of the two lists. -/
lemma mem_zipWith_imp {α β γ : Type} (f : α → β → γ) (as : List α) (bs : List β)
    (x : γ) (hx : x ∈ List.zipWith f as bs) : ∃ a ∈ as, ∃ b ∈ bs, x = f a b := by
  induction as generalizing bs with
  | nil => simp at hx
  | cons a as ih =>
    cases bs with
    | nil => simp at hx
    | cons b bs =>
      rw [List.zipWith_cons_cons] at hx
      rcases List.mem_cons.mp hx with h | h
      · exact ⟨a, List.mem_cons_self a as, b, List.mem_cons_self b bs, h⟩
      · obtain ⟨a2, ha2, b2, hb2, heq⟩ := ih bs h
        exact ⟨a2, List.mem_cons_of_mem a ha2, b2, List.mem_cons_of_mem b hb2, heq⟩

/-- Helper: the repaired coordinate of a single emitter update is valid as
soon as the pre-update coordinate was. -/
lemma antenna_step_valid (r1 r2 : ℝ) (g : ℤ × ℤ) (pv : (ℤ × ℤ) × (ℝ × ℝ))
    (hpv : valid_set pv.1) : valid_set (antenna_step r1 r2 g pv).1 := by
  unfold antenna_step
  dsimp only
  split
  · assumption
  · exact hpv

/-- Helper: one PSO iteration preserves validity of all particle coordinates. -/
lemma pso_step_valid (s : SwarmState) (r : ℝ × ℝ) (h : all_valid s.particles) :
    all_valid (pso_step s r).particles := by
  obtain ⟨parts, vel, gb0, bf0, hist⟩ := s
  cases parts with
  | nil => exact h
  | cons p ps =>
    intro q hq c hc
    simp only [pso_step] at hq
    obtain ⟨l, hl, rfl⟩ := List.mem_map.mp hq
    obtain ⟨pos, hpos, velrow, hvel, rfl⟩ := mem_zipWith_imp _ _ _ _ hl
    obtain ⟨pr, hpr, rfl⟩ := List.mem_map.mp hc
    unfold particle_step at hpr
    obtain ⟨pv, hpv, gk, hgk, rfl⟩ := mem_zipWith_imp _ _ _ _ hpr
    apply antenna_step_valid
    obtain ⟨pva, pvb⟩ := pv
    have hmem : pva ∈ pos := (List.of_mem_zip hpv).1
    exact h pos hpos pva hmem

/-- C4: the repair invariant.  If every emitter coordinate of every initial
particle is in `valid_set` (initialization samples only from the valid
positions), then after any number of PSO iterations, with any random draws,
every emitter coordinate of every particle is still in `valid_set`: the
per-coordinate repair reverts each invalid rounded coordinate to its
pre-update value and accepts valid ones. -/
theorem C4_repair_invariant (ps : List (List (ℤ × ℤ))) (rs : List (ℝ × ℝ))
    (h : all_valid ps) : all_valid ((pso_run (pso_init ps) rs).particles) := by
  have main : ∀ (rs2 : List (ℝ × ℝ)) (s : SwarmState), all_valid s.particles →
      all_valid ((pso_run s rs2).particles) := by
    intro rs2
    induction rs2 with
    | nil => intro s hs; exact hs
    | cons r rest ih => intro s hs; exact ih (pso_step s r) (pso_step_valid s r hs)
  exact main rs (pso_init ps) h

/-- Witness for C4: a one-particle, one-emitter swarm at the FREE cell (1, 1)
run for one iteration. -/
theorem C4_witness :
    all_valid ((pso_run (pso_init [[((1 : ℤ), (1 : ℤ))]]) [((1 : ℝ) / 2, 1 / 3)]).particles) :=
  C4_repair_invariant [[((1 : ℤ), (1 : ℤ))]] [((1 : ℝ) / 2, 1 / 3)] (by decide)

/-- The swarm is nonempty and velocities are in bijection with particles, as
in the source where both arrays have first dimension `num_particles = 80`. -/
def shape_ok (s : SwarmState) : Prop :=
  s.particles ≠ [] ∧ s.velocity.length = s.particles.length

/-- The fitness history is non-decreasing and its last entry is dominated by
the incumbent best fitness. -/
def hist_inv (s : SwarmState) : Prop :=
  List.Chain' (· ≤ ·) s.fitness_history ∧
  ∀ l, s.fitness_history.getLast? = some l → ∃ b, s.best_fitness = some b ∧ l ≤ b

/-- Helper: the updated incumbent dominates the previous incumbent. -/
lemma new_best_ge (b : ℝ) (fmax : ℝ) : b ≤ new_best (some b) fmax := by
  show b ≤ if b < fmax then fmax else b
  split
  · exact le_of_lt (by assumption)
  · exact le_refl b

/-- Helper: one PSO iteration keeps the swarm shape. -/
lemma pso_step_shape (s : SwarmState) (r : ℝ × ℝ) (h : shape_ok s) :
    shape_ok (pso_step s r) := by
  obtain ⟨parts, vel, gb0, bf0, hist⟩ := s
  obtain ⟨hne, hlen⟩ := h
  cases parts with
  | nil => exact absurd rfl hne
  | cons p ps =>
    constructor
    · simp only [pso_step]
      intro hempty
      rw [List.map_eq_nil_iff] at hempty
      have := congrArg List.length hempty
      rw [List.length_zipWith] at this
      simp only [List.length_nil] at this
      simp only [List.length_cons] at this hlen
      omega
    · simp only [pso_step, List.length_map]

/-- Helper: one PSO iteration appends exactly the updated incumbent to the
history and preserves the history invariant. -/
lemma pso_step_hist (s : SwarmState) (r : ℝ × ℝ) (hs : shape_ok s)
    (hh : hist_inv s) :
    hist_inv (pso_step s r) ∧
    (pso_step s r).fitness_history.length = s.fitness_history.length + 1 := by
  obtain ⟨parts, vel, gb0, bf0, hist⟩ := s
  obtain ⟨hne, -⟩ := hs
  cases parts with
  | nil => exact absurd rfl hne
  | cons p ps =>
    obtain ⟨hchain, hlast⟩ := hh
    simp only [pso_step]
    dsimp only at hchain hlast
    constructor
    · constructor
      · rw [List.chain'_append]
        refine ⟨hchain, List.chain'_singleton _, ?_⟩
        intro x hx y hy
        simp only [List.head?_cons, Option.mem_def, Option.some.injEq] at hy
        subst hy
        obtain ⟨b, hb, hxb⟩ := hlast x (Option.mem_def.mp hx)
        rw [hb]
        exact hxb.trans (new_best_ge b _)
      · intro l hl
        rw [List.getLast?_concat] at hl
        injection hl with hl2
        exact ⟨_, rfl, le_of_eq hl2.symm⟩
    · rw [List.length_append, List.length_singleton]

/-- Helper: the PSO loop appends one history entry per iteration and keeps
the history non-decreasing. -/
lemma pso_run_hist : ∀ (rs : List (ℝ × ℝ)) (s : SwarmState), shape_ok s → hist_inv s →
    hist_inv (pso_run s rs) ∧
    (pso_run s rs).fitness_history.length = s.fitness_history.length + rs.length := by
  intro rs
  induction rs with
  | nil => intro s _ hh; exact ⟨hh, rfl⟩
  | cons r rest ih =>
    intro s hs hh
    obtain ⟨hh1, hlen1⟩ := pso_step_hist s r hs hh
    obtain ⟨hh2, hlen2⟩ := ih (pso_step s r) (pso_step_shape s r hs) hh1
    refine ⟨hh2, ?_⟩
    show (pso_run (pso_step s r) rest).fitness_history.length = _
    rw [hlen2, hlen1, List.length_cons]
    omega

/-- C5: for a nonempty population, after T iterations the fitness history has
exactly T entries and is non-decreasing: each iteration appends the incumbent
best fitness, which is replaced by the iteration maximum only on strict
improvement. -/
theorem C5_fitness_history (ps : List (List (ℤ × ℤ))) (rs : List (ℝ × ℝ))
    (hne : ps ≠ []) :
    (pso_run (pso_init ps) rs).fitness_history.length = rs.length ∧
    List.Chain' (· ≤ ·) (pso_run (pso_init ps) rs).fitness_history := by
  have hs : shape_ok (pso_init ps) := by
    constructor
    · exact hne
    · simp [pso_init]
  have hh : hist_inv (pso_init ps) := by
    constructor
    · exact List.chain'_nil
    · intro l hl
      simp [pso_init] at hl
  obtain ⟨⟨hchain, -⟩, hlen⟩ := pso_run_hist rs (pso_init ps) hs hh
  refine ⟨?_, hchain⟩
  rw [hlen]
  simp [pso_init]

/-- Witness for C5: one particle, one iteration, one history entry. -/
theorem C5_witness :
    (pso_run (pso_init [[((1 : ℤ), (1 : ℤ))]]) [((1 : ℝ) / 2, 1 / 3)]).fitness_history.length = 1 ∧
    List.Chain' (· ≤ ·)
      (pso_run (pso_init [[((1 : ℤ), (1 : ℤ))]]) [((1 : ℝ) / 2, 1 / 3)]).fitness_history := by
  have h := C5_fitness_history [[((1 : ℤ), (1 : ℤ))]] [((1 : ℝ) / 2, 1 / 3)] (by decide)
  exact ⟨by simpa using h.1, h.2⟩

end RFID
